import Mathlib

/-!
Verification of the tamper-proof data service (client/server crypto + Redis
store logic).  The model is a shallow embedding of the TypeScript sources:

* server routes and crypto wrappers from the Express app (app.ts);
* the Redis-backed CacheManager (CacheManager.ts), modelled as a pure store
  with explicit expiry times and an explicit clock;
* the React client (App.tsx), modelled as a small state record.

JavaScript strings holding payloads, secrets and tags are modelled as byte
lists; the hex/base64 text encodings used on the wire are injective and are
collapsed.  The CryptoJS library primitives (SHA-256, HMAC-SHA-256 and the
AES block permutation) are external to the repository and are modelled as an
abstract bundle of byte functions; the repository-level layers that use them
(key derivation, IV derivation, CBC chaining, PKCS#7 padding, tag
computation and comparison, the store protocol) are embedded concretely.
-/

namespace Bequest

/-- Byte strings.  Values are intended to be < 256 but nothing below
depends on that bound. -/
abbrev Bytes := List Nat

/-- The CryptoJS primitives used by the repository, as an abstract bundle:
a hash, a keyed hash (key first, then message), and the AES-256 block
permutation in both directions (key, 16-byte block).  These are library
externals; theorems that need them assume only the block-cipher inverse
contract. -/
structure JsCrypto where
  sha256 : Bytes → Bytes
  hmacSha256 : Bytes → Bytes → Bytes
  aesEncBlock : Bytes → Bytes → Bytes
  aesDecBlock : Bytes → Bytes → Bytes

/-- Word-wise XOR of two byte strings, truncating to the shorter one
(as JavaScript `^` over aligned words). -/
def xorB (a b : Bytes) : Bytes := List.zipWith Nat.xor a b

/-- CryptoJS reads exactly 16 IV bytes; missing words read as 0 in
JavaScript (`x ^ undefined` is `x`), so a short IV is zero-extended. -/
def padIV (iv : Bytes) : Bytes := (iv ++ List.replicate 16 0).take 16

/-- PKCS#7 pad length for a message of `n` bytes: between 1 and 16. -/
def padLen16 (n : Nat) : Nat := 16 - n % 16

/-- PKCS#7 padding as applied by CryptoJS.AES.encrypt. -/
def pkcs7pad (p : Bytes) : Bytes :=
  p ++ List.replicate (padLen16 p.length) (padLen16 p.length)

/-- CryptoJS.pad.Pkcs7.unpad: read the last byte and drop that many bytes
(no validation of the padding bytes). -/
def pkcs7unpad (p : Bytes) : Bytes := p.take (p.length - p.getLast?.getD 0)

/-- Split a byte string into 16-byte blocks (last block may be short when
the length is not a multiple of 16).  Fuel-driven so that it reduces in the
kernel; `fuel = l.length` always suffices. -/
def chunksAux : Nat → Bytes → List Bytes
  | _, [] => []
  | 0, _ :: _ => []
  | fuel + 1, a :: l => ((a :: l).take 16) :: chunksAux fuel ((a :: l).drop 16)

/-- Split a byte string into 16-byte blocks. -/
def chunks16 (l : Bytes) : List Bytes := chunksAux l.length l

/-- CBC-mode encryption over a list of plaintext blocks: each block is
XORed with the previous ciphertext block (the IV for the first) and then
put through the block cipher. -/
def cbcEncBlocks (C : JsCrypto) (key : Bytes) : Bytes → List Bytes → List Bytes
  | _, [] => []
  | prev, b :: bs =>
    let c := C.aesEncBlock key (xorB b prev)
    c :: cbcEncBlocks C key c bs

/-- CBC-mode decryption over a list of ciphertext blocks. -/
def cbcDecBlocks (C : JsCrypto) (key : Bytes) : Bytes → List Bytes → List Bytes
  | _, [] => []
  | prev, b :: bs => xorB (C.aesDecBlock key b) prev :: cbcDecBlocks C key b bs

/-- Value of a hex digit character, if it is one. -/
def hexDigit? (c : Char) : Option Nat :=
  if '0' ≤ c ∧ c ≤ '9' then some (c.toNat - 48)
  else if 'a' ≤ c ∧ c ≤ 'f' then some (c.toNat - 87)
  else if 'A' ≤ c ∧ c ≤ 'F' then some (c.toNat - 55)
  else none

/-- CryptoJS.enc.Hex.parse on a character list: consume hex digits two at a
time, one byte per pair.  Defined on the clean domain (even length, all hex
digits); on anything else the JavaScript original produces unspecified junk
words and the model returns `none`. -/
def hexPairs : List Char → Option Bytes
  | [] => some []
  | [_] => none
  | c1 :: c2 :: rest => do
    let v1 ← hexDigit? c1
    let v2 ← hexDigit? c2
    let tail ← hexPairs rest
    pure ((16 * v1 + v2) :: tail)

/-- The IV derivation in the sources: `CryptoJS.enc.Hex.parse(id.slice(0, 16))`,
i.e. the first 16 characters of the identity string parsed as hex digits. -/
def deriveNonce (id : String) : Option Bytes := hexPairs (id.data.take 16)

/-- The IV bytes actually fed to the cipher (junk hex collapses to the
default; every use in the model only needs encrypt and decrypt to agree). -/
def ivOf (id : String) : Bytes := (deriveNonce id).getD []

/-- What the specification says `deriveNonce` is: the first 16 bytes of the
identity string taken as raw bytes of the IV. -/
def deriveNonceSpec (id : String) : Bytes := (id.data.take 16).map Char.toNat

/-- getKey: SHA-256 of the secret, hex string sliced to 64 hex characters,
parsed back to bytes — i.e. the first 32 digest bytes. -/
def getKey (C : JsCrypto) (secret : Bytes) : Bytes := (C.sha256 secret).take 32

/-- generateHMAC: transit tag, HMAC-SHA-256 keyed by the session secret. -/
def generateHMAC (C : JsCrypto) (data secret : Bytes) : Bytes :=
  C.hmacSha256 secret data

/-- generateServerHMAC: at-rest tag, HMAC-SHA-256 keyed by the process-wide
server secret. -/
def generateServerHMAC (C : JsCrypto) (serverSecret data : Bytes) : Bytes :=
  C.hmacSha256 serverSecret data

/-- encryptData(data, id, secret): AES-CBC with key `getKey secret` and IV
from the first 16 characters of `id`, PKCS#7-padded. -/
def encryptData (C : JsCrypto) (data : Bytes) (id : String) (secret : Bytes) : Bytes :=
  (cbcEncBlocks C (getKey C secret) (padIV (ivOf id)) (chunks16 (pkcs7pad data))).flatten

/-- decryptData(encryptedData, id, secret): inverse direction, then unpad. -/
def decryptData (C : JsCrypto) (encryptedData : Bytes) (id : String) (secret : Bytes) : Bytes :=
  pkcs7unpad (cbcDecBlocks C (getKey C secret) (padIV (ivOf id)) (chunks16 encryptedData)).flatten

/-- A Redis value together with its absolute expiry time (`SET ... EX ttl`
stores the value until `now + ttl`). -/
structure Entry (α : Type) where
  val : α
  expiresAt : Nat
deriving DecidableEq, Repr

/-- The raw string stored under `userData:<id>`.  `putUserData` always
stores `JSON.stringify({data, hmac})`; external tampering can replace it
with a string on which `JSON.parse` throws. -/
inductive PrimaryVal : Type
  | jsonObj (data : Bytes) (hmac : Bytes)
  | notJson (s : Bytes)
deriving DecidableEq, Repr

/-- The Redis state used by the CacheManager, plus the current clock.  The
three key families `userInfo:`, `userData:` and `backup-userData:` become
three finite maps.  Operations run instantaneously at time `now`. -/
structure Store where
  now : Nat
  userInfo : String → Option (Entry Bytes)
  userData : String → Option (Entry PrimaryVal)
  backupUserData : String → Option (Entry Bytes)

/-- Point update of a key-value map. -/
def setFn {α : Type} (f : String → Option α) (k : String) (v : Option α) :
    String → Option α :=
  fun x => if x = k then v else f x

/-- Redis GET with expiry: a key reads back while `now` is before its
expiry time, and reads as absent afterwards. -/
def getLive {α : Type} (f : String → Option (Entry α)) (now : Nat) (id : String) :
    Option α :=
  match f id with
  | some e => if now < e.expiresAt then some e.val else none
  | none => none

/-- CacheManager.putUserInfo: store the secret under `userInfo:<id>` with a
one-hour TTL. -/
def putUserInfo (s : Store) (id : String) (secret : Bytes) : Store :=
  { s with userInfo := setFn s.userInfo id (some ⟨secret, s.now + 60 * 60⟩) }

/-- CacheManager.putUserData: inside one MULTI/EXEC transaction, store
`JSON.stringify({data, hmac})` under `userData:<id>` and the bare data
under `backup-userData:<id>`, each with a 15-minute TTL.  The transaction
is modelled by the single atomic state update. -/
def putUserData (s : Store) (id : String) (d hm : Bytes) : Store :=
  { s with
    userData := setFn s.userData id (some ⟨.jsonObj d hm, s.now + 60 * 15⟩),
    backupUserData := setFn s.backupUserData id (some ⟨d, s.now + 60 * 15⟩) }

/-- CacheManager.getUserInfo: if the secret is live, refresh its TTL via
putUserInfo and return it; otherwise return null. -/
def getUserInfo (s : Store) (id : String) : Option Bytes × Store :=
  match getLive s.userInfo s.now id with
  | some secret => (some secret, putUserInfo s id secret)
  | none => (none, s)

/-- The only infrastructure failure the model tracks: the CacheError that
getUserData raises when JSON.parse throws on the stored primary string. -/
inductive CacheErr : Type
  | cacheError
deriving DecidableEq, Repr

/-- CacheManager.getUserData: read `userData:<id>` and JSON.parse it.  A
stored string that does not parse makes JSON.parse throw inside the try
block, which surfaces as a CacheError. -/
def getUserData (s : Store) (id : String) :
    Except CacheErr (Option (Bytes × Bytes)) :=
  match getLive s.userData s.now id with
  | some (.jsonObj d hm) => .ok (some (d, hm))
  | some (.notJson _) => .error .cacheError
  | none => .ok none

/-- CacheManager.getBackupUserData (the promoteBackup / self-heal
operation): read the backup; if present, read the secret directly (no TTL
refresh), deterministically re-encrypt the backup plaintext, recompute the
at-rest tag and rewrite primary and backup via putUserData, returning the
backup plaintext; otherwise return null. -/
def getBackupUserData (C : JsCrypto) (ss : Bytes) (s : Store) (id : String) :
    Option Bytes × Store :=
  match getLive s.backupUserData s.now id with
  | some d =>
    match getLive s.userInfo s.now id with
    | some secret =>
      let ed := encryptData C d id secret
      let sh := generateServerHMAC C ss ed
      (some d, putUserData s id d sh)
    | none => (none, s)
  | none => (none, s)

/-- The stable machine-readable messages of the JSON error/success
bodies of the two routes. -/
inductive ServerMsg : Type
  | secretMissing
  | dataMissing
  | tamperedNoBackup
  | integrityCompromised
  | dataSaved
  | serviceUnavailable
deriving DecidableEq, Repr

/-- An HTTP response of the data routes: status code, machine-readable
message, and the `{encryptedData, hmac}` payload (present only on a
successful read). -/
structure HttpResponse where
  status : Nat
  msg : Option ServerMsg
  payload : Option (Bytes × Bytes)
deriving DecidableEq, Repr

/-- The internal steps of a request the temporal claims talk about, in
execution order. -/
inductive Ev : Type
  | tagCompare
  | promote
  | decryptCall
  | hmacVerify
  | writeData
deriving DecidableEq, Repr

/-- The GET / route (after the JWT middleware has yielded the identity):
resolve the secret (refreshing its TTL), read the primary record,
recompute the at-rest tag over the deterministic re-encryption and compare;
on mismatch promote the backup, failing when it is absent; answer with the
ciphertext and a fresh transit tag. -/
def handleGet (C : JsCrypto) (ss : Bytes) (s : Store) (id : String) :
    HttpResponse × Store × List Ev :=
  match getUserInfo s id with
  | (none, s1) => (⟨400, some .secretMissing, none⟩, s1, [])
  | (some secret, s1) =>
    match getUserData s1 id with
    | .error _ => (⟨503, some .serviceUnavailable, none⟩, s1, [])
    | .ok none => (⟨400, some .dataMissing, none⟩, s1, [])
    | .ok (some (d, storedHmac)) =>
      let ed := encryptData C d id secret
      if generateServerHMAC C ss ed = storedHmac then
        (⟨200, none, some (ed, generateHMAC C ed secret)⟩, s1, [.tagCompare])
      else
        match getBackupUserData C ss s1 id with
        | (none, s2) =>
          (⟨400, some .tamperedNoBackup, none⟩, s2, [.tagCompare, .promote])
        | (some bd, s2) =>
          let ed2 := encryptData C bd id secret
          (⟨200, none, some (ed2, generateHMAC C ed2 secret)⟩, s2,
            [.tagCompare, .promote])

/-- The POST / route: resolve the secret (refreshing its TTL), decrypt the
submitted ciphertext, then verify the transit HMAC, rejecting on mismatch;
otherwise compute the at-rest tag and write primary plus backup.  The event
list records that the code calls decryptData before the HMAC comparison. -/
def handlePost (C : JsCrypto) (ss : Bytes) (s : Store) (id : String)
    (encryptedData hmac : Bytes) : HttpResponse × Store × List Ev :=
  match getUserInfo s id with
  | (none, s1) => (⟨400, some .secretMissing, none⟩, s1, [])
  | (some secret, s1) =>
    let decrypted := decryptData C encryptedData id secret
    if generateHMAC C encryptedData secret ≠ hmac then
      (⟨400, some .integrityCompromised, none⟩, s1, [.decryptCall, .hmacVerify])
    else
      (⟨200, some .dataSaved, none⟩,
        putUserData s1 id decrypted (generateServerHMAC C ss encryptedData),
        [.decryptCall, .hmacVerify, .writeData])

/-- The GET /connect route, restricted to its store effect: generate a
fresh identity and secret (passed in as parameters, modelling the fresh
randomness) and store the secret with putUserInfo. -/
def handleConnect (s : Store) (newId : String) (newSecret : Bytes) : Store :=
  putUserInfo s newId newSecret

/-- The client-side session state: the identity and secret held in the
React state hooks. -/
structure ClientState where
  id : Option String
  secret : Option Bytes
deriving DecidableEq, Repr

/-- The clearSecret handler of the client: setId(null), setSecret(null),
then await getTokenAndSecret(), which calls GET /connect and installs the
fresh identity and secret it returns.  The momentary cleared state is not
observable after the awaited reconnect, so the composite effect is the
replacement of the local pair and the storing of the new secret; the old
identity key in the store is untouched. -/
def clearSecret (_old : ClientState) (s : Store) (newId : String)
    (newSecret : Bytes) : ClientState × Store :=
  (⟨some newId, some newSecret⟩, handleConnect s newId newSecret)

/-- A concrete crypto bundle for evaluating the model on closed inputs:
block encryption XORs with the zero-extended key, so the block-cipher
inverse contract holds. -/
def toyCrypto : JsCrypto where
  sha256 := fun b => (b ++ List.replicate 32 1).take 32
  hmacSha256 := fun k m => k ++ 255 :: m
  aesEncBlock := fun k b => xorB b (padIV k)
  aesDecBlock := fun k b => xorB b (padIV k)

/-! Concrete fixtures used to evaluate the model on closed inputs. -/

/-- A sample identity (32 hex characters, like a uuid without dashes). -/
def wId : String := "00112233445566778899aabbccddeeff"

/-- A second, distinct identity for reconnect scenarios. -/
def wNewId : String := "ffeeddccbbaa99887766554433221100"

/-- A sample session secret. -/
def wSecret : Bytes := [7, 7]

/-- A sample fresh secret issued on reconnect. -/
def wNewSecret : Bytes := [8]

/-- A sample server-wide secret. -/
def wSS : Bytes := [9]

/-- A store at time 0 where `wId` has a live secret, a live primary record
whose stored at-rest tag `[0]` does not match the recomputation over its
plaintext `[1, 2]`, and a live backup record `[3, 4]`. -/
def wStoreTampered : Store :=
  { now := 0
    userInfo := setFn (fun _ => none) wId (some ⟨wSecret, 50⟩)
    userData := setFn (fun _ => none) wId (some ⟨.jsonObj [1, 2] [0], 50⟩)
    backupUserData := setFn (fun _ => none) wId (some ⟨[3, 4], 50⟩) }

/-- Like `wStoreTampered` but with no backup record at all. -/
def wStoreNoBackup : Store :=
  { wStoreTampered with backupUserData := fun _ => none }

/-- Like `wStoreTampered` but with the primary record tampered into a
string on which JSON.parse throws. -/
def wStoreNotJson : Store :=
  { wStoreTampered with
    userData := setFn (fun _ => none) wId (some ⟨.notJson [104], 50⟩) }

/-! Lemmas about the cipher layer. -/

theorem xorB_length (a b : Bytes) : (xorB a b).length = min a.length b.length := by
  simp [xorB]

theorem padIV_length (iv : Bytes) : (padIV iv).length = 16 := by
  simp [padIV]

theorem xorB_cancel : ∀ (a b : Bytes), a.length = b.length →
    xorB (xorB a b) b = a := by
  intro a
  induction a with
  | nil => intro b _; cases b <;> rfl
  | cons x xs ih =>
    intro b h
    cases b with
    | nil => simp at h
    | cons y ys =>
      simp only [List.length_cons] at h
      simp only [xorB, List.zipWith_cons_cons]
      rw [show Nat.xor (Nat.xor x y) y = x from Nat.xor_cancel_right y x]
      exact congrArg (x :: ·) (ih ys (by omega))

theorem cbcDecBlocks_cbcEncBlocks (C : JsCrypto) (key : Bytes)
    (hinv : ∀ b, b.length = 16 → C.aesDecBlock key (C.aesEncBlock key b) = b)
    (hlen : ∀ b, b.length = 16 → (C.aesEncBlock key b).length = 16) :
    ∀ (bs : List Bytes) (prev : Bytes), (∀ b ∈ bs, b.length = 16) →
      prev.length = 16 →
      cbcDecBlocks C key prev (cbcEncBlocks C key prev bs) = bs := by
  intro bs
  induction bs with
  | nil => intro prev _ _; rfl
  | cons b bs ih =>
    intro prev hall hprev
    have hb : b.length = 16 := hall b (by simp)
    have hxb : (xorB b prev).length = 16 := by
      rw [xorB_length, hb, hprev]; simp
    simp only [cbcEncBlocks, cbcDecBlocks]
    rw [hinv _ hxb, xorB_cancel b prev (hb.trans hprev.symm)]
    exact congrArg (b :: ·)
      (ih _ (fun x hx => hall x (by simp [hx])) (hlen _ hxb))

theorem cbcEncBlocks_len (C : JsCrypto) (key : Bytes)
    (hlen : ∀ b, b.length = 16 → (C.aesEncBlock key b).length = 16) :
    ∀ (bs : List Bytes) (prev : Bytes), (∀ b ∈ bs, b.length = 16) →
      prev.length = 16 →
      ∀ c ∈ cbcEncBlocks C key prev bs, c.length = 16 := by
  intro bs
  induction bs with
  | nil => intro prev _ _ c hc; simp [cbcEncBlocks] at hc
  | cons b bs ih =>
    intro prev hall hprev c hc
    have hxb : (xorB b prev).length = 16 := by
      rw [xorB_length, hall b (by simp), hprev]; simp
    simp only [cbcEncBlocks, List.mem_cons] at hc
    rcases hc with rfl | hc
    · exact hlen _ hxb
    · exact ih _ (fun x hx => hall x (by simp [hx])) (hlen _ hxb) c hc

theorem chunksAux_congr : ∀ (f1 f2 : Nat) (l : Bytes),
    l.length ≤ f1 → l.length ≤ f2 → chunksAux f1 l = chunksAux f2 l := by
  intro f1
  induction f1 with
  | zero =>
    intro f2 l h1 _
    cases l with
    | nil => cases f2 <;> rfl
    | cons a t => simp at h1
  | succ f ih =>
    intro f2 l h1 h2
    cases l with
    | nil => cases f2 <;> rfl
    | cons a t =>
      cases f2 with
      | zero => simp at h2
      | succ f2 =>
        simp only [List.length_cons] at h1 h2
        simp only [chunksAux]
        refine congrArg (_ :: ·) (ih f2 _ ?_ ?_) <;>
          simp only [List.length_drop, List.length_cons] <;> omega

theorem chunks16_cons (l : Bytes) (h : l ≠ []) :
    chunks16 l = l.take 16 :: chunks16 (l.drop 16) := by
  cases l with
  | nil => exact absurd rfl h
  | cons a t =>
    show chunksAux (a :: t).length (a :: t) = _
    simp only [List.length_cons, chunksAux]
    refine congrArg (_ :: ·) (chunksAux_congr _ _ _ ?_ le_rfl)
    simp only [List.length_drop, List.length_cons]
    omega

theorem flatten_chunksAux : ∀ (fuel : Nat) (l : Bytes), l.length ≤ fuel →
    (chunksAux fuel l).flatten = l := by
  intro fuel
  induction fuel with
  | zero =>
    intro l h
    cases l with
    | nil => rfl
    | cons a t => simp at h
  | succ f ih =>
    intro l h
    cases l with
    | nil => rfl
    | cons a t =>
      simp only [List.length_cons] at h
      simp only [chunksAux, List.flatten_cons]
      rw [ih _ (by simp only [List.length_drop, List.length_cons]; omega)]
      exact List.take_append_drop 16 (a :: t)

theorem flatten_chunks16 (l : Bytes) : (chunks16 l).flatten = l :=
  flatten_chunksAux _ _ le_rfl

theorem chunksAux_blocks : ∀ (fuel : Nat) (l : Bytes), l.length ≤ fuel →
    l.length % 16 = 0 → ∀ b ∈ chunksAux fuel l, b.length = 16 := by
  intro fuel
  induction fuel with
  | zero =>
    intro l _ _ b hb
    cases l with
    | nil => simp [chunksAux] at hb
    | cons a t => simp [chunksAux] at hb
  | succ f ih =>
    intro l h1 h2 b hb
    cases l with
    | nil => simp [chunksAux] at hb
    | cons a t =>
      simp only [List.length_cons] at h1 h2
      simp only [chunksAux, List.mem_cons] at hb
      rcases hb with rfl | hb
      · simp only [List.length_take, List.length_cons]
        omega
      · refine ih _ ?_ ?_ b hb <;>
          simp only [List.length_drop, List.length_cons] <;> omega

theorem chunks16_blocks (l : Bytes) (h : l.length % 16 = 0) :
    ∀ b ∈ chunks16 l, b.length = 16 :=
  chunksAux_blocks _ _ le_rfl h

theorem chunks16_flatten_of : ∀ (L : List Bytes), (∀ b ∈ L, b.length = 16) →
    chunks16 L.flatten = L := by
  intro L
  induction L with
  | nil => intro _; rfl
  | cons b bs ih =>
    intro h
    have hb : b.length = 16 := h b (by simp)
    have hbne : b ++ bs.flatten ≠ [] := by
      intro hc
      have := congrArg List.length hc
      simp [hb] at this
    rw [List.flatten_cons, chunks16_cons _ hbne]
    congr 1
    · rw [← hb]; exact List.take_left b bs.flatten
    · rw [← hb, List.drop_left]
      exact ih (fun x hx => h x (by simp [hx]))

theorem padLen16_pos (n : Nat) : 0 < padLen16 n := by
  unfold padLen16; omega

theorem pkcs7pad_mod (p : Bytes) : (pkcs7pad p).length % 16 = 0 := by
  simp only [pkcs7pad, padLen16, List.length_append, List.length_replicate]
  omega

theorem pkcs7unpad_pkcs7pad (p : Bytes) : pkcs7unpad (pkcs7pad p) = p := by
  have hk : 0 < padLen16 p.length := padLen16_pos _
  unfold pkcs7unpad pkcs7pad
  have hlast :
      (p ++ List.replicate (padLen16 p.length) (padLen16 p.length)).getLast?
        = some (padLen16 p.length) := by
    obtain ⟨j, hj⟩ : ∃ j, padLen16 p.length = j + 1 :=
      ⟨padLen16 p.length - 1, by omega⟩
    rw [hj, List.replicate_succ', ← List.append_assoc, List.getLast?_concat]
  rw [hlast]
  simp only [Option.getD_some, List.length_append, List.length_replicate,
    Nat.add_sub_cancel]
  exact List.take_left p _

theorem toyCrypto_inv (k b : Bytes) (hb : b.length = 16) :
    toyCrypto.aesDecBlock k (toyCrypto.aesEncBlock k b) = b :=
  xorB_cancel b (padIV k) (by rw [hb, padIV_length])

theorem toyCrypto_len (k b : Bytes) (hb : b.length = 16) :
    (toyCrypto.aesEncBlock k b).length = 16 := by
  show (xorB b (padIV k)).length = 16
  rw [xorB_length, hb, padIV_length]
  simp

/-- C3: for every plaintext P, identity I and secret S, decrypting the
encryption of P under the key derived from S and the IV derived from I,
with that same key and IV, yields P again.  The hypotheses are the contract
of the external AES block primitive: block decryption inverts block
encryption, and encrypted blocks are 16 bytes. -/
theorem c3_roundtrip (C : JsCrypto) (p : Bytes) (id : String) (secret : Bytes)
    (hinv : ∀ k b, b.length = 16 → C.aesDecBlock k (C.aesEncBlock k b) = b)
    (hlen : ∀ k b, b.length = 16 → (C.aesEncBlock k b).length = 16) :
    decryptData C (encryptData C p id secret) id secret = p := by
  unfold encryptData decryptData
  rw [chunks16_flatten_of _
    (cbcEncBlocks_len C _ (hlen _) _ _
      (chunks16_blocks _ (pkcs7pad_mod p)) (padIV_length _))]
  rw [cbcDecBlocks_cbcEncBlocks C _ (hinv _) (hlen _) _ _
    (chunks16_blocks _ (pkcs7pad_mod p)) (padIV_length _)]
  rw [flatten_chunks16]
  exact pkcs7unpad_pkcs7pad p

theorem c3_roundtrip_witness :
    decryptData toyCrypto
      (encryptData toyCrypto [104, 105] "00112233445566778899aabbccddeeff" [7, 7])
      "00112233445566778899aabbccddeeff" [7, 7] = [104, 105] :=
  c3_roundtrip toyCrypto [104, 105] "00112233445566778899aabbccddeeff" [7, 7]
    (fun k b hb => toyCrypto_inv k b hb) (fun k b hb => toyCrypto_len k b hb)

/-! Lemmas about the hex parsing of the IV. -/

theorem hexPairs_length : ∀ (cs : List Char) (bs : Bytes),
    hexPairs cs = some bs → 2 * bs.length = cs.length
  | [], bs, h => by
    simp only [hexPairs, Option.some.injEq] at h
    simp [← h]
  | [_], _, h => by simp [hexPairs] at h
  | c1 :: c2 :: rest, bs, h => by
    cases hv1 : hexDigit? c1 with
    | none => simp [hexPairs, hv1] at h
    | some v1 =>
      cases hv2 : hexDigit? c2 with
      | none => simp [hexPairs, hv1, hv2] at h
      | some v2 =>
        cases ht : hexPairs rest with
        | none => simp [hexPairs, hv1, hv2, ht] at h
        | some tail =>
          have ih := hexPairs_length rest tail ht
          simp [hexPairs, hv1, hv2, ht] at h
          subst h
          simp only [List.length_cons]
          omega

theorem hexPairs_isSome : ∀ (cs : List Char),
    (∀ c ∈ cs, (hexDigit? c).isSome) → cs.length % 2 = 0 →
    ∃ bs, hexPairs cs = some bs
  | [], _, _ => ⟨[], rfl⟩
  | [c], _, h2 => by simp at h2
  | c1 :: c2 :: rest, hall, h2 => by
    obtain ⟨v1, hv1⟩ := Option.isSome_iff_exists.mp (hall c1 (by simp))
    obtain ⟨v2, hv2⟩ := Option.isSome_iff_exists.mp (hall c2 (by simp))
    obtain ⟨tail, ht⟩ := hexPairs_isSome rest
      (fun c hc => hall c (by simp [hc]))
      (by simp only [List.length_cons] at h2; omega)
    exact ⟨(16 * v1 + v2) :: tail, by simp [hexPairs, hv1, hv2, ht]⟩

/-- C7 as stated is false on the code: on this identity the derived IV is
the 8-byte hex decoding of the first 16 characters, not the 16 raw bytes
the claim promises. -/
theorem c7_nonce_counterexample :
    ivOf "00112233445566778899aabbccddeeff" ≠
      deriveNonceSpec "00112233445566778899aabbccddeeff" := by decide

/-- C7 amended: deriveNonce parses the first 16 characters of the identity
as hexadecimal digits, so whenever the identity has at least 16 characters
and those characters are hex digits, the derived IV is an 8-byte value (the
byte list decoded from the hex pairs), not a 16-byte raw-character IV. -/
theorem c7_nonce_hexparse (id : String)
    (hlen : 16 ≤ id.data.length)
    (hhex : ∀ c ∈ id.data.take 16, (hexDigit? c).isSome) :
    ∃ l, deriveNonce id = some l ∧ l.length = 8 := by
  have htake : (id.data.take 16).length = 16 := by
    simp only [List.length_take]
    omega
  obtain ⟨bs, hbs⟩ := hexPairs_isSome (id.data.take 16) hhex
    (by rw [htake])
  refine ⟨bs, hbs, ?_⟩
  have := hexPairs_length _ _ hbs
  omega

theorem c7_nonce_hexparse_witness :
    (16 ≤ ("00112233445566778899aabbccddeeff" : String).data.length) ∧
      ∃ l, deriveNonce "00112233445566778899aabbccddeeff" = some l ∧
        l.length = 8 :=
  ⟨by decide, c7_nonce_hexparse "00112233445566778899aabbccddeeff"
    (by decide) (by decide)⟩

/-! Lemmas about the store and the routes. -/

theorem setFn_self {α : Type} (f : String → Option α) (k : String)
    (v : Option α) : setFn f k v k = v := by
  simp [setFn]

theorem setFn_other {α : Type} (f : String → Option α) (k k' : String)
    (v : Option α) (h : k' ≠ k) : setFn f k v k' = f k' := by
  simp [setFn, h]

theorem setFn_setFn {α : Type} (f : String → Option α) (k : String)
    (v1 v2 : Option α) : setFn (setFn f k v1) k v2 = setFn f k v2 := by
  funext x
  by_cases hx : x = k <;> simp [setFn, hx]

theorem getLive_setFn_self {α : Type} (f : String → Option (Entry α))
    (id : String) (v : α) (t now : Nat) :
    getLive (setFn f id (some ⟨v, t⟩)) now id =
      if now < t then some v else none := by
  simp [getLive, setFn]

theorem getUserInfo_some (s : Store) (id : String) (secret : Bytes)
    (h : getLive s.userInfo s.now id = some secret) :
    getUserInfo s id = (some secret, putUserInfo s id secret) := by
  unfold getUserInfo
  rw [h]

theorem getUserInfo_none (s : Store) (id : String)
    (h : getLive s.userInfo s.now id = none) :
    getUserInfo s id = (none, s) := by
  unfold getUserInfo
  rw [h]

theorem getUserData_json (s : Store) (id : String) (d hm : Bytes)
    (h : getLive s.userData s.now id = some (.jsonObj d hm)) :
    getUserData s id = .ok (some (d, hm)) := by
  unfold getUserData
  rw [h]

theorem getUserData_notJson (s : Store) (id : String) (t : Bytes)
    (h : getLive s.userData s.now id = some (.notJson t)) :
    getUserData s id = .error .cacheError := by
  unfold getUserData
  rw [h]

theorem getUserData_none (s : Store) (id : String)
    (h : getLive s.userData s.now id = none) :
    getUserData s id = .ok none := by
  unfold getUserData
  rw [h]

theorem getBackupUserData_some (C : JsCrypto) (ss : Bytes) (s : Store)
    (id : String) (d secret : Bytes)
    (hb : getLive s.backupUserData s.now id = some d)
    (hs : getLive s.userInfo s.now id = some secret) :
    getBackupUserData C ss s id =
      (some d,
        putUserData s id d (generateServerHMAC C ss (encryptData C d id secret))) := by
  unfold getBackupUserData
  rw [hb, hs]

theorem getBackupUserData_none (C : JsCrypto) (ss : Bytes) (s : Store)
    (id : String) (hb : getLive s.backupUserData s.now id = none) :
    getBackupUserData C ss s id = (none, s) := by
  unfold getBackupUserData
  rw [hb]

/-- After the TTL refresh of getUserInfo, the secret reads back live at the
same instant. -/
theorem getLive_after_refresh (s : Store) (id : String) (secret : Bytes) :
    getLive (putUserInfo s id secret).userInfo (putUserInfo s id secret).now id
      = some secret := by
  show getLive (setFn s.userInfo id (some ⟨secret, s.now + 60 * 60⟩)) s.now id
    = some secret
  rw [getLive_setFn_self, if_pos (by omega)]

/-- The clean read path: live secret, live primary whose stored tag matches
the recomputation; the route answers 200 with the re-encrypted plaintext and
a fresh transit tag, the only store effect being the secret TTL refresh. -/
theorem handleGet_clean (C : JsCrypto) (ss : Bytes) (s : Store) (id : String)
    (secret d h : Bytes)
    (hsec : getLive s.userInfo s.now id = some secret)
    (hdat : getLive s.userData s.now id = some (.jsonObj d h))
    (hmatch : generateServerHMAC C ss (encryptData C d id secret) = h) :
    handleGet C ss s id =
      (⟨200, none, some (encryptData C d id secret,
          generateHMAC C (encryptData C d id secret) secret)⟩,
        putUserInfo s id secret, [.tagCompare]) := by
  unfold handleGet
  rw [getUserInfo_some s id secret hsec]
  dsimp only
  rw [getUserData_json (putUserInfo s id secret) id d h hdat]
  dsimp only
  rw [if_pos hmatch]

/-- The self-heal read path: live secret, live primary with a tag mismatch,
live backup; the route promotes the backup and answers 200 with the
re-encrypted backup plaintext. -/
theorem handleGet_promote (C : JsCrypto) (ss : Bytes) (s : Store) (id : String)
    (secret d h b : Bytes)
    (hsec : getLive s.userInfo s.now id = some secret)
    (hdat : getLive s.userData s.now id = some (.jsonObj d h))
    (hmis : generateServerHMAC C ss (encryptData C d id secret) ≠ h)
    (hbak : getLive s.backupUserData s.now id = some b) :
    handleGet C ss s id =
      (⟨200, none, some (encryptData C b id secret,
          generateHMAC C (encryptData C b id secret) secret)⟩,
        putUserData (putUserInfo s id secret) id b
          (generateServerHMAC C ss (encryptData C b id secret)),
        [.tagCompare, .promote]) := by
  unfold handleGet
  rw [getUserInfo_some s id secret hsec]
  dsimp only
  rw [getUserData_json (putUserInfo s id secret) id d h hdat]
  dsimp only
  rw [if_neg hmis]
  rw [getBackupUserData_some C ss (putUserInfo s id secret) id b secret hbak
      (getLive_after_refresh s id secret)]

/-- The unrecoverable read path: live secret, live primary with a tag
mismatch, no backup; the route answers the tampered-no-backup error with no
payload. -/
theorem handleGet_noBackup (C : JsCrypto) (ss : Bytes) (s : Store)
    (id : String) (secret d h : Bytes)
    (hsec : getLive s.userInfo s.now id = some secret)
    (hdat : getLive s.userData s.now id = some (.jsonObj d h))
    (hmis : generateServerHMAC C ss (encryptData C d id secret) ≠ h)
    (hbak : getLive s.backupUserData s.now id = none) :
    handleGet C ss s id =
      (⟨400, some .tamperedNoBackup, none⟩, putUserInfo s id secret,
        [.tagCompare, .promote]) := by
  unfold handleGet
  rw [getUserInfo_some s id secret hsec]
  dsimp only
  rw [getUserData_json (putUserInfo s id secret) id d h hdat]
  dsimp only
  rw [if_neg hmis]
  rw [getBackupUserData_none C ss (putUserInfo s id secret) id hbak]

/-- The parse-failure read path: live secret, live primary holding a string
JSON.parse throws on; the route answers 503 before any tag comparison. -/
theorem handleGet_notJson (C : JsCrypto) (ss : Bytes) (s : Store)
    (id : String) (secret t : Bytes)
    (hsec : getLive s.userInfo s.now id = some secret)
    (hdat : getLive s.userData s.now id = some (.notJson t)) :
    handleGet C ss s id =
      (⟨503, some .serviceUnavailable, none⟩, putUserInfo s id secret, []) := by
  unfold handleGet
  rw [getUserInfo_some s id secret hsec]
  dsimp only
  rw [getUserData_notJson (putUserInfo s id secret) id t hdat]

/-- Immediately after putUserData, the primary record reads back with the
written plaintext and tag. -/
theorem getLive_after_putUserData_data (s : Store) (id : String) (d hm : Bytes) :
    getLive (putUserData s id d hm).userData (putUserData s id d hm).now id
      = some (.jsonObj d hm) := by
  show getLive (setFn s.userData id (some ⟨.jsonObj d hm, s.now + 60 * 15⟩))
    s.now id = _
  rw [getLive_setFn_self, if_pos (by omega)]

/-- Immediately after putUserData, the backup record reads back with the
written plaintext. -/
theorem getLive_after_putUserData_backup (s : Store) (id : String) (d hm : Bytes) :
    getLive (putUserData s id d hm).backupUserData (putUserData s id d hm).now id
      = some d := by
  show getLive (setFn s.backupUserData id (some ⟨d, s.now + 60 * 15⟩)) s.now id = _
  rw [getLive_setFn_self, if_pos (by omega)]

/-! The claims. -/

/-- C1: with a live secret, a live primary record whose stored at-rest tag
does not match the tag recomputed over the deterministic re-encryption of
its plaintext, and a live backup record, the read returns the backup
plaintext re-encrypted with a fresh transit tag and rewrites the primary
record with the backup plaintext and a freshly computed at-rest tag; an
immediately following read returns the same payload with no further
promotion and no change to the data records. -/
theorem c1_tamper_selfheal (C : JsCrypto) (ss : Bytes) (s : Store)
    (id : String) (secret d h b : Bytes)
    (hsec : getLive s.userInfo s.now id = some secret)
    (hdat : getLive s.userData s.now id = some (.jsonObj d h))
    (hmis : generateServerHMAC C ss (encryptData C d id secret) ≠ h)
    (hbak : getLive s.backupUserData s.now id = some b) :
    (handleGet C ss s id).1 =
      ⟨200, none, some (encryptData C b id secret,
        generateHMAC C (encryptData C b id secret) secret)⟩ ∧
    (handleGet C ss s id).2.1.userData id =
      some ⟨.jsonObj b (generateServerHMAC C ss (encryptData C b id secret)),
        s.now + 60 * 15⟩ ∧
    (handleGet C ss (handleGet C ss s id).2.1 id).1 = (handleGet C ss s id).1 ∧
    Ev.promote ∉ (handleGet C ss (handleGet C ss s id).2.1 id).2.2 ∧
    (handleGet C ss (handleGet C ss s id).2.1 id).2.1.userData =
      (handleGet C ss s id).2.1.userData ∧
    (handleGet C ss (handleGet C ss s id).2.1 id).2.1.backupUserData =
      (handleGet C ss s id).2.1.backupUserData := by
  rw [handleGet_promote C ss s id secret d h b hsec hdat hmis hbak]
  rw [handleGet_clean C ss
    (putUserData (putUserInfo s id secret) id b
      (generateServerHMAC C ss (encryptData C b id secret))) id secret b
    (generateServerHMAC C ss (encryptData C b id secret))
    (getLive_after_refresh s id secret)
    (getLive_after_putUserData_data (putUserInfo s id secret) id b
      (generateServerHMAC C ss (encryptData C b id secret)))
    rfl]
  exact ⟨rfl, setFn_self _ _ _, rfl, by simp, rfl, rfl⟩

theorem c1_tamper_selfheal_witness :
    generateServerHMAC toyCrypto wSS (encryptData toyCrypto [1, 2] wId wSecret) ≠ [0] ∧
    (handleGet toyCrypto wSS wStoreTampered wId).1 =
      ⟨200, none, some (encryptData toyCrypto [3, 4] wId wSecret,
        generateHMAC toyCrypto (encryptData toyCrypto [3, 4] wId wSecret) wSecret)⟩ :=
  ⟨by decide,
    (c1_tamper_selfheal toyCrypto wSS wStoreTampered wId wSecret [1, 2] [0] [3, 4]
      (by decide) (by decide) (by decide) (by decide)).1⟩

/-- C4: with a live secret, a tampered live primary record (tag mismatch)
and no live backup record, the read fails with the tampered-no-backup error,
the response carries no payload (no plaintext and no ciphertext), and the
data records are unchanged. -/
theorem c4_no_backup_error (C : JsCrypto) (ss : Bytes) (s : Store)
    (id : String) (secret d h : Bytes)
    (hsec : getLive s.userInfo s.now id = some secret)
    (hdat : getLive s.userData s.now id = some (.jsonObj d h))
    (hmis : generateServerHMAC C ss (encryptData C d id secret) ≠ h)
    (hbak : getLive s.backupUserData s.now id = none) :
    (handleGet C ss s id).1 = ⟨400, some .tamperedNoBackup, none⟩ ∧
    (handleGet C ss s id).1.payload = none ∧
    (handleGet C ss s id).2.1.userData = s.userData ∧
    (handleGet C ss s id).2.1.backupUserData = s.backupUserData := by
  rw [handleGet_noBackup C ss s id secret d h hsec hdat hmis hbak]
  exact ⟨rfl, rfl, rfl, rfl⟩

theorem c4_no_backup_error_witness :
    getLive wStoreNoBackup.backupUserData wStoreNoBackup.now wId = none ∧
    (handleGet toyCrypto wSS wStoreNoBackup wId).1 =
      ⟨400, some .tamperedNoBackup, none⟩ :=
  ⟨by decide,
    (c4_no_backup_error toyCrypto wSS wStoreNoBackup wId wSecret [1, 2] [0]
      (by decide) (by decide) (by decide) (by decide)).1⟩

/-- C5: putUserData writes, in one atomic transaction, the primary record
with exactly the given plaintext and at-rest tag and the backup record with
exactly that plaintext, each expiring 15 minutes after now; immediately
after the save, the plaintext readable from the primary equals the
plaintext readable from the backup. -/
theorem c5_save_primary_backup (s : Store) (id : String) (d hm : Bytes) :
    (putUserData s id d hm).userData id =
      some ⟨.jsonObj d hm, s.now + 60 * 15⟩ ∧
    (putUserData s id d hm).backupUserData id = some ⟨d, s.now + 60 * 15⟩ ∧
    getUserData (putUserData s id d hm) id = .ok (some (d, hm)) ∧
    getLive (putUserData s id d hm).backupUserData (putUserData s id d hm).now id
      = some d :=
  ⟨setFn_self _ _ _, setFn_self _ _ _,
    getUserData_json _ id d hm (getLive_after_putUserData_data s id d hm),
    getLive_after_putUserData_backup s id d hm⟩

/-- C6: promoteBackup (getBackupUserData) is idempotent: with a live secret
and a live backup record, running it a second time with no intervening
writes returns the same plaintext and leaves exactly the same stored
primary, backup, session and clock state as running it once. -/
theorem c6_promote_idempotent (C : JsCrypto) (ss : Bytes) (s : Store)
    (id : String) (secret b : Bytes)
    (hsec : getLive s.userInfo s.now id = some secret)
    (hbak : getLive s.backupUserData s.now id = some b) :
    (getBackupUserData C ss (getBackupUserData C ss s id).2 id).1 =
      (getBackupUserData C ss s id).1 ∧
    (getBackupUserData C ss (getBackupUserData C ss s id).2 id).2.userData =
      (getBackupUserData C ss s id).2.userData ∧
    (getBackupUserData C ss (getBackupUserData C ss s id).2 id).2.backupUserData =
      (getBackupUserData C ss s id).2.backupUserData ∧
    (getBackupUserData C ss (getBackupUserData C ss s id).2 id).2.userInfo =
      (getBackupUserData C ss s id).2.userInfo ∧
    (getBackupUserData C ss (getBackupUserData C ss s id).2 id).2.now =
      (getBackupUserData C ss s id).2.now := by
  rw [getBackupUserData_some C ss s id b secret hbak hsec]
  rw [getBackupUserData_some C ss
    (putUserData s id b (generateServerHMAC C ss (encryptData C b id secret)))
    id b secret
    (getLive_after_putUserData_backup s id b
      (generateServerHMAC C ss (encryptData C b id secret)))
    hsec]
  refine ⟨rfl, ?_, ?_, rfl, rfl⟩ <;> simp only [putUserData, setFn_setFn]

theorem c6_promote_idempotent_witness :
    getLive wStoreTampered.backupUserData wStoreTampered.now wId = some [3, 4] ∧
    (getBackupUserData toyCrypto wSS
        (getBackupUserData toyCrypto wSS wStoreTampered wId).2 wId).1 =
      (getBackupUserData toyCrypto wSS wStoreTampered wId).1 :=
  ⟨by decide,
    (c6_promote_idempotent toyCrypto wSS wStoreTampered wId wSecret [3, 4]
      (by decide) (by decide)).1⟩

/-- C8: session lookup returns the stored secret while it is live and
resets its expiry to a full hour from the time of the read, leaving the
data records and the clock untouched; when the secret is absent or expired
it returns null without an error and leaves the store unchanged. -/
theorem c8_lookup_sliding (s : Store) (id : String) :
    (∀ secret, getLive s.userInfo s.now id = some secret →
      (getUserInfo s id).1 = some secret ∧
      (getUserInfo s id).2.userInfo id = some ⟨secret, s.now + 60 * 60⟩ ∧
      (getUserInfo s id).2.userData = s.userData ∧
      (getUserInfo s id).2.backupUserData = s.backupUserData ∧
      (getUserInfo s id).2.now = s.now) ∧
    (getLive s.userInfo s.now id = none → getUserInfo s id = (none, s)) := by
  constructor
  · intro secret h
    rw [getUserInfo_some s id secret h]
    exact ⟨rfl, setFn_self _ _ _, rfl, rfl, rfl⟩
  · intro h
    exact getUserInfo_none s id h

theorem c8_lookup_sliding_witness :
    getLive wStoreTampered.userInfo wStoreTampered.now wId = some wSecret ∧
    (getUserInfo wStoreTampered wId).1 = some wSecret ∧
    (getUserInfo wStoreTampered wId).2.userInfo wId =
      some ⟨wSecret, wStoreTampered.now + 60 * 60⟩ :=
  ⟨by decide,
    ((c8_lookup_sliding wStoreTampered wId).1 wSecret (by decide)).1,
    ((c8_lookup_sliding wStoreTampered wId).1 wSecret (by decide)).2.1⟩

/-- C10: if the stored primary value has been tampered into a string that
JSON.parse throws on, the read surfaces a CacheError as 503 Service
Unavailable; the tag comparison and the self-heal path are never reached
and the data records are unchanged. -/
theorem c10_notjson_503 (C : JsCrypto) (ss : Bytes) (s : Store)
    (id : String) (secret t : Bytes)
    (hsec : getLive s.userInfo s.now id = some secret)
    (hdat : getLive s.userData s.now id = some (.notJson t)) :
    (handleGet C ss s id).1 = ⟨503, some .serviceUnavailable, none⟩ ∧
    Ev.tagCompare ∉ (handleGet C ss s id).2.2 ∧
    Ev.promote ∉ (handleGet C ss s id).2.2 ∧
    (handleGet C ss s id).2.1.userData = s.userData ∧
    (handleGet C ss s id).2.1.backupUserData = s.backupUserData := by
  rw [handleGet_notJson C ss s id secret t hsec hdat]
  exact ⟨rfl, by simp, by simp, rfl, rfl⟩

theorem c10_notjson_503_witness :
    getLive wStoreNotJson.userData wStoreNotJson.now wId =
      some (.notJson [104]) ∧
    (handleGet toyCrypto wSS wStoreNotJson wId).1 =
      ⟨503, some .serviceUnavailable, none⟩ :=
  ⟨by decide,
    (c10_notjson_503 toyCrypto wSS wStoreNotJson wId wSecret [104]
      (by decide) (by decide)).1⟩

/-- C2 fails on the code: on a save request whose transit tag does not
verify, the server does reject with the integrity error, but it has
already invoked decryptData — the POST handler calls decryptData on the
submitted ciphertext before comparing the transit HMAC, as the event trace
records.  (The specification mandates the opposite order.) -/
theorem c2_decrypt_before_verify :
    (handlePost toyCrypto wSS wStoreTampered wId [1, 2, 3] []).1 =
      ⟨400, some .integrityCompromised, none⟩ ∧
    (handlePost toyCrypto wSS wStoreTampered wId [1, 2, 3] []).2.2 =
      [.decryptCall, .hmacVerify] := by
  exact ⟨by decide, by decide⟩

/-- C9 fails on the code: the client clear-session handler only clears the
local React state and reconnects under a fresh identity; it never deletes
the server-side secret of the old identity, so a server-side lookup of the
old identity still returns the old secret rather than Missing. -/
theorem c9_clear_counterexample :
    (getUserInfo
      (clearSecret ⟨some wId, some wSecret⟩ wStoreTampered wNewId wNewSecret).2
      wId).1 = some wSecret ∧
    some wSecret ≠ (none : Option Bytes) := by
  exact ⟨by decide, by decide⟩

/-- C9 amended: clearSession replaces the client's local identity and
secret with the fresh pair obtained by reconnecting; the server-side entry
of the old identity is untouched, so until its natural expiry a server-side
lookup still returns the old secret. -/
theorem c9_clear_local_only (c : ClientState) (s : Store) (oldId newId : String)
    (newSecret : Bytes) (hne : oldId ≠ newId) :
    (clearSecret c s newId newSecret).1 = ⟨some newId, some newSecret⟩ ∧
    (clearSecret c s newId newSecret).2.userInfo oldId = s.userInfo oldId :=
  ⟨rfl, setFn_other _ _ _ _ hne⟩

theorem c9_clear_local_only_witness :
    wId ≠ wNewId ∧
    (clearSecret ⟨some wId, some wSecret⟩ wStoreTampered wNewId wNewSecret).2.userInfo wId
      = wStoreTampered.userInfo wId :=
  ⟨by decide,
    (c9_clear_local_only ⟨some wId, some wSecret⟩ wStoreTampered wId wNewId
      wNewSecret (by decide)).2⟩

end Bequest
